import Mathlib

/-!
Shallow embedding of the randword utility (src/src/main.rs): the cursor
store, the line source, the activation dispatcher and the two output
sinks, with theorems checking the specification's claims about them.
Bytes are modelled as natural numbers; 10 is the newline byte, 48 the
ASCII digit zero.
-/

namespace Randword

/-- Digits pushed by the first loop of u64_to_array, least significant
first: each step writes 48 + num mod 10 into the next slot from the
right, divides num by 10, and breaks once num reaches 0.  The fuel is
the buffer size N, so at most N digits are produced. -/
def pushDigits : Nat → Nat → List Nat
  | _, 0 => []
  | num, f + 1 =>
      (48 + num % 10) :: (if num / 10 = 0 then [] else pushDigits (num / 10) f)

/-- ASCII digit bytes of num as they sit in the buffer, most significant
first, capped at n bytes from the low end. -/
def digitBytes (num n : Nat) : List Nat :=
  (pushDigits num n).reverse

/-- State of buf after the first loop of u64_to_array: zero filler on
the left, the produced digit bytes right aligned. -/
def bufAfterFirstLoop (num n : Nat) : List Nat :=
  List.replicate (n - (digitBytes num n).length) 0 ++ digitBytes num n

/-- Second loop of u64_to_array: copy every nonzero byte of buf into res
from the front, leaving the remaining res slots at 0. -/
def compactNonzero (buf : List Nat) (n : Nat) : List Nat :=
  buf.filter (fun b => b ≠ 0) ++
    List.replicate (n - (buf.filter (fun b => b ≠ 0)).length) 0

/-- Embedding of u64_to_array in src/src/main.rs lines 334-357,
for buffer size n (the program instantiates n = 8). -/
def u64_to_array (n : Nat) (num : Nat) : List Nat :=
  compactNonzero (bufAfterFirstLoop num n) n

/-- One step of the accumulation loop in parse_lines_to_skip: a byte in
the ASCII digit range contributes result * 10 + digit, any other byte is
skipped. -/
def parseStep (result digit : Nat) : Nat :=
  if 48 ≤ digit ∧ digit ≤ 57 then result * 10 + (digit - 48) else result

/-- Embedding of parse_lines_to_skip in src/src/main.rs lines 465-473. -/
def parse_lines_to_skip (file_line_buff : List Nat) : Nat :=
  file_line_buff.foldl parseStep 0

/-- Modelled from the spec, claim C5 wording: the record is 8 bytes with
the ASCII decimal digits right aligned at the end and any filler bytes
before them. -/
def specRightAligned (c : Nat) (record : List Nat) : Prop :=
  record.length = 8 ∧ ∃ filler : List Nat, record = filler ++ digitBytes c 8

/-- Byte stream consumption shared by read_until and read_line: consume
bytes up to and including the first newline byte, or everything at end
of file.  Returns the consumed bytes and the rest of the stream. -/
def read_until_nl : List Nat → List Nat × List Nat
  | [] => ([], [])
  | b :: rest =>
      if b = 10 then ([10], rest)
      else
        let p := read_until_nl rest
        (b :: p.1, p.2)

/-- Embedding of the read step of poll_event, src/src/main.rs lines
376-382: size is the byte count returned by read_line; a size of zero
signals end of stream, otherwise the slice drops the last byte read. -/
def next_line (s : List Nat) : Option (List Nat) × List Nat :=
  let p := read_until_nl s
  if p.1.length = 0 then (none, p.2)
  else (some (p.1.take (p.1.length - 1)), p.2)

/-- Byte stream of a word file holding the given lines, each terminated
by a newline byte. -/
def encodeLines (lines : List (List Nat)) : List Nat :=
  (lines.map (fun l => l ++ [10])).flatten

/-- Embedding of the startup skip loop, src/src/main.rs lines 304-310:
k iterations of read_until over the newline byte, discarding the bytes. -/
def skipLines : Nat → List Nat → List Nat
  | 0, s => s
  | k + 1, s => skipLines k (read_until_nl s).2

/-- Repeatedly apply next_line until it signals end of stream,
collecting the line slices; fuel bounds the iteration count. -/
def drainAux : Nat → List Nat → List (List Nat)
  | 0, _ => []
  | fuel + 1, s =>
      match next_line s with
      | (none, _) => []
      | (some l, rest) => l :: drainAux fuel rest

/-- All line slices obtainable from a stream; the byte length of the
stream is enough fuel since every successful read consumes at least the
newline byte. -/
def drainLines (s : List Nat) : List (List Nat) :=
  drainAux s.length s

/-- State threaded through the run loop: the full word-file contents
(the rewind target), the unread remainder of the stream, and the
persisted-on-shutdown cursor lines_to_skip. -/
structure RunState where
  full : List Nat
  remaining : List Nat
  cursor : Nat
deriving DecidableEq, Repr

/-- Embedding of the hotkey branch of poll_event, src/src/main.rs lines
373-393: read a line; on size 0 reset the cursor to 0 and rewind the
stream, emitting nothing; otherwise emit the slice without its last
byte and advance the cursor. -/
def activation (st : RunState) : Option (List Nat) × RunState :=
  let p := read_until_nl st.remaining
  if p.1.length = 0 then
    (none, { st with remaining := st.full, cursor := 0 })
  else
    (some (p.1.take (p.1.length - 1)),
      { st with remaining := p.2, cursor := st.cursor + 1 })

/-- Iterate the activation cycle, collecting what each cycle emits. -/
def runActivations : Nat → RunState → List (Option (List Nat)) × RunState
  | 0, st => ([], st)
  | k + 1, st =>
      let p := activation st
      let q := runActivations k p.2
      (p.1 :: q.1, q.2)

/-- Byte stream of the 3-line word file alpha, beta, gamma. -/
def wordFile : List Nat :=
  encodeLines [[97, 108, 112, 104, 97], [98, 101, 116, 97], [103, 97, 109, 109, 97]]

/-- Platform messages seen by the PeekMessageW loop. -/
inductive Msg
  | quit
  | hotkey (wParam : Nat)
  | other
deriving DecidableEq, Repr

/-- Result of one poll_event call: the emissions of the tick, the run
state, the running flag, and the queued messages left unconsumed when
the function returned. -/
structure PollOut where
  emits : List (Option (List Nat))
  state : RunState
  running : Bool
  leftover : List Msg
deriving DecidableEq, Repr

/-- Embedding of the message loop of poll_event, src/src/main.rs lines
359-397: WM_QUIT clears the running flag and returns; a hotkey message
with wParam 1 performs one activation and then breaks out of the loop,
leaving the rest of the queue for the next tick; every other message is
dispatched and draining continues. -/
def poll_event : List Msg → RunState → Bool → PollOut
  | [], st, run => ⟨[], st, run, []⟩
  | m :: rest, st, run =>
      match m with
      | Msg.quit => ⟨[], st, false, rest⟩
      | Msg.hotkey w =>
          if w = 1 then
            let p := activation st
            ⟨[p.1], p.2, run, rest⟩
          else
            poll_event rest st run
      | Msg.other => poll_event rest st run

/-- Synthetic keyboard events delivered through SendInput. -/
inductive KeyEvent
  | down (wVk : Nat)
  | up (wVk : Nat)
deriving DecidableEq, Repr

/-- Embedding of lobyte, src/src/main.rs lines 399-401. -/
def lobyte (w : Nat) : Nat := w % 256

/-- Embedding of type_out_characters, src/src/main.rs lines 403-429,
parameterised by the keyboard-layout mapping VkKeyScanW.  A character
whose mapping is at most -1 is skipped.  For a resolvable character the
code calls SendInput once with the key-down input; it then builds the
KEYEVENTF_KEYUP variant of the input but the loop body ends without a
second SendInput call, so no key-up event is ever delivered. -/
def type_out_characters (vkKeyScan : Nat → Int) (line_slice : List Nat) : List KeyEvent :=
  (line_slice.map (fun chr =>
    if vkKeyScan chr ≤ -1 then []
    else [KeyEvent.down (lobyte (vkKeyScan chr).toNat)])).flatten

/-- Modelled from the spec, claim C2 wording: for each resolvable
character a key-down event followed by a key-up event. -/
def type_out_characters_spec (vkKeyScan : Nat → Int) (line_slice : List Nat) : List KeyEvent :=
  (line_slice.map (fun chr =>
    if vkKeyScan chr ≤ -1 then []
    else [KeyEvent.down (lobyte (vkKeyScan chr).toNat),
      KeyEvent.up (lobyte (vkKeyScan chr).toNat)])).flatten

/-- Concrete keyboard layout for counterexamples: byte 97 resolves to
virtual key 65, every other byte is unresolvable. -/
def vk0 : Nat → Int := fun c => if c = 97 then 65 else -1

/-- Outcome of set_clipboard_string. -/
inductive ClipOutcome
  | openFailed
  | allocFailed
  | published (block : List (Option Nat))
deriving DecidableEq, Repr

/-- The copy loop of set_clipboard_string, src/src/main.rs lines
443-447: byte i of the text is written to offset i of the block for
each i below the text length; no other offset is written. -/
def copy_loop (block : List (Option Nat)) (bytes : List Nat) : List (Option Nat) :=
  (List.range bytes.length).foldl (fun blk i => blk.set i (some (bytes.getD i 0))) block

/-- Embedding of set_clipboard_string, src/src/main.rs lines 431-463.
GlobalAlloc is called with GMEM_MOVEABLE only (no GMEM_ZEROINIT), so
the fresh block of text length plus one bytes is uninitialised,
modelled as a list of none; the copy loop then fills offsets 0 to
length - 1.  An open failure shows a notice and publishes nothing; an
allocation failure silently skips the publish step. -/
def set_clipboard_string (openOk allocOk : Bool) (line_slice : List Nat) : ClipOutcome :=
  if openOk then
    if allocOk then
      ClipOutcome.published
        (copy_loop (List.replicate (line_slice.length + 1) none) line_slice)
    else ClipOutcome.allocFailed
  else ClipOutcome.openFailed

/-- Outcome of the startup sequence of main. -/
inductive StartupOutcome
  | aborted
  | running (cursor : Nat)
deriving DecidableEq, Repr

/-- Embedding of the startup path of main, src/src/main.rs lines
217-310: window creation, hotkey registration and either file open
failure abort with a notice; a failure of read_exact on the 8-byte
cursor record only shows a notice and execution continues with the
read buffer still holding its pre-fill of ASCII digit zero bytes.
The skipline argument is none when the record file cannot be opened,
some none when it opens but the read fails, and some (some buf) when
the read fills the buffer with buf. -/
def startup (windowOk hotkeyOk : Bool) (skipline : Option (Option (List Nat)))
    (wordsOk : Bool) : StartupOutcome :=
  if windowOk = false then StartupOutcome.aborted
  else if hotkeyOk = false then StartupOutcome.aborted
  else
    match skipline with
    | none => StartupOutcome.aborted
    | some readRes =>
        let buf := match readRes with
          | none => List.replicate 8 48
          | some b => b
        if wordsOk = false then StartupOutcome.aborted
        else StartupOutcome.running (parse_lines_to_skip buf)

end Randword

namespace Randword

/-- Every byte produced by the digit loop is an ASCII digit. -/
theorem pushDigits_mem_range {f num d : Nat} (h : d ∈ pushDigits num f) :
    48 ≤ d ∧ d ≤ 57 := by
  induction f generalizing num with
  | zero => simp [pushDigits] at h
  | succ f ih =>
    rw [pushDigits, List.mem_cons] at h
    rcases h with h | h
    · have := Nat.mod_lt num (show 0 < 10 by norm_num)
      omega
    · by_cases h0 : num / 10 = 0
      · rw [if_pos h0] at h
        simp at h
      · rw [if_neg h0] at h
        exact ih h

/-- The digit loop writes at most f bytes. -/
theorem pushDigits_length_le (f : Nat) : ∀ num, (pushDigits num f).length ≤ f := by
  induction f with
  | zero => intro num; simp [pushDigits]
  | succ f ih =>
    intro num
    rw [pushDigits]
    by_cases h0 : num / 10 = 0
    · rw [if_pos h0]; simp
    · rw [if_neg h0, List.length_cons]
      exact Nat.succ_le_succ (ih (num / 10))

/-- The digit loop writes at least one byte when the buffer is nonempty. -/
theorem pushDigits_length_pos (f num : Nat) (h : 0 < f) :
    0 < (pushDigits num f).length := by
  cases f with
  | zero => omega
  | succ f => rw [pushDigits]; simp

/-- Decimal recomposition of the low digits: the accumulator identity
behind parse_lines_to_skip reading digits most significant first. -/
theorem mod_pow_succ_ten (num f : Nat) :
    num / 10 % 10 ^ f * 10 + num % 10 = num % 10 ^ (f + 1) := by
  have hp : 0 < (10 : Nat) ^ f := pow_pos (by norm_num) f
  have hq1 : num = 10 * (num / 10) + num % 10 := (Nat.div_add_mod num 10).symm
  have hq2 : num / 10 = 10 ^ f * (num / 10 / 10 ^ f) + num / 10 % 10 ^ f :=
    (Nat.div_add_mod _ _).symm
  have hr2 : num / 10 % 10 ^ f < 10 ^ f := Nat.mod_lt _ hp
  have hr1 : num % 10 < 10 := Nat.mod_lt _ (by norm_num)
  have hpow : (10 : Nat) ^ (f + 1) = 10 ^ f * 10 := pow_succ 10 f
  have key : num = 10 ^ (f + 1) * (num / 10 / 10 ^ f)
      + (num / 10 % 10 ^ f * 10 + num % 10) := by
    conv_lhs => rw [hq1]
    conv_lhs => rw [hq2]
    rw [hpow]; ring
  conv_rhs => rw [key]
  rw [Nat.mul_add_mod]
  exact (Nat.mod_eq_of_lt (by rw [hpow]; omega)).symm

/-- Feeding the digit bytes of num, most significant first, through the
accumulation loop of parse_lines_to_skip recovers num modulo 10 to the f. -/
theorem foldl_parseStep_pushDigits (f : Nat) : ∀ num,
    (pushDigits num f).reverse.foldl parseStep 0 = num % 10 ^ f := by
  induction f with
  | zero => intro num; simp [pushDigits, Nat.mod_one]
  | succ f ih =>
    intro num
    have hd : 48 ≤ 48 + num % 10 ∧ 48 + num % 10 ≤ 57 := by
      have := Nat.mod_lt num (show 0 < 10 by norm_num)
      omega
    by_cases h0 : num / 10 = 0
    · have hnum : num < 10 := by omega
      have h10 : (10 : Nat) ≤ 10 ^ (f + 1) := by
        calc (10 : Nat) = 10 ^ 1 := (pow_one 10).symm
        _ ≤ 10 ^ (f + 1) := Nat.pow_le_pow_right (by norm_num) (by omega)
      have h2 : num % 10 ^ (f + 1) = num := Nat.mod_eq_of_lt (by omega)
      rw [pushDigits, if_pos h0, List.reverse_cons, List.reverse_nil, List.nil_append,
        List.foldl_cons, List.foldl_nil]
      simp only [parseStep]
      rw [if_pos hd, h2]
      omega
    · rw [pushDigits, if_neg h0, List.reverse_cons, List.foldl_append,
        List.foldl_cons, List.foldl_nil, ih (num / 10)]
      simp only [parseStep]
      rw [if_pos hd]
      have h48 : 48 + num % 10 - 48 = num % 10 := by omega
      rw [h48]
      exact mod_pow_succ_ten num f

/-- Zero filler bytes are skipped by the parse loop. -/
theorem foldl_parseStep_replicate_zero (m : Nat) :
    ∀ acc, (List.replicate m 0).foldl parseStep acc = acc := by
  induction m with
  | zero => intro acc; rfl
  | succ m ih =>
    intro acc
    rw [List.replicate_succ, List.foldl_cons,
      show parseStep acc 0 = acc by simp [parseStep]]
    exact ih acc

/-- A list of nonzero bytes is unchanged by the nonzero filter. -/
theorem filter_ne_zero_of_all_ne (l : List Nat) (h : ∀ b ∈ l, b ≠ 0) :
    l.filter (fun b => b ≠ 0) = l := by
  induction l with
  | nil => rfl
  | cons a l ih =>
    have ha : a ≠ 0 := h a (List.mem_cons_self a l)
    rw [List.filter_cons, if_pos (by simp [ha]),
      ih (fun b hb => h b (List.mem_cons_of_mem a hb))]

/-- The zero filter over the zero filler yields nothing. -/
theorem filter_ne_zero_replicate (m : Nat) :
    (List.replicate m (0 : Nat)).filter (fun b => b ≠ 0) = [] := by
  induction m with
  | zero => rfl
  | succ m ih => rw [List.replicate_succ, List.filter_cons]; simp [ih]

/-- Every digit byte is nonzero. -/
theorem digitBytes_ne_zero (num n : Nat) : ∀ b ∈ digitBytes num n, b ≠ 0 := by
  intro b hb
  rw [digitBytes, List.mem_reverse] at hb
  have := pushDigits_mem_range hb
  omega

/-- The compaction loop moves exactly the digit bytes to the front:
u64_to_array is the digit bytes, most significant first, followed by
zero filler up to the buffer size. -/
theorem u64_to_array_eq (n num : Nat) :
    u64_to_array n num
      = digitBytes num n ++ List.replicate (n - (digitBytes num n).length) 0 := by
  have hf : (bufAfterFirstLoop num n).filter (fun b => b ≠ 0) = digitBytes num n := by
    rw [bufAfterFirstLoop, List.filter_append, filter_ne_zero_replicate,
      filter_ne_zero_of_all_ne _ (digitBytes_ne_zero num n), List.nil_append]
  rw [u64_to_array, compactNonzero, hf]

/-- Parsing the record written for num recovers num modulo 10 to the n. -/
theorem parse_u64_roundtrip (n num : Nat) :
    parse_lines_to_skip (u64_to_array n num) = num % 10 ^ n := by
  rw [parse_lines_to_skip, u64_to_array_eq, List.foldl_append,
    foldl_parseStep_replicate_zero, digitBytes]
  exact foldl_parseStep_pushDigits n num

/-- Reading a newline-free line followed by a newline consumes exactly
the line and its terminator. -/
theorem read_until_nl_line (line rest : List Nat) (h : 10 ∉ line) :
    read_until_nl (line ++ 10 :: rest) = (line ++ [10], rest) := by
  induction line with
  | nil => simp [read_until_nl]
  | cons b line ih =>
    have hb : b ≠ 10 := fun hb => h (hb ▸ List.mem_cons_self b line)
    have h2 : 10 ∉ line := fun hm => h (List.mem_cons_of_mem b hm)
    rw [List.cons_append, read_until_nl]
    simp only [if_neg hb, ih h2, List.cons_append]

/-- Reading a newline-free stream consumes the whole stream. -/
theorem read_until_nl_eof (line : List Nat) (h : 10 ∉ line) :
    read_until_nl line = (line, []) := by
  induction line with
  | nil => rfl
  | cons b line ih =>
    have hb : b ≠ 10 := fun hb => h (hb ▸ List.mem_cons_self b line)
    have h2 : 10 ∉ line := fun hm => h (List.mem_cons_of_mem b hm)
    rw [read_until_nl]
    simp only [if_neg hb, ih h2]

/-- A line terminated by a newline is returned with exactly the
terminator stripped. -/
theorem next_line_terminated (line rest : List Nat) (h : 10 ∉ line) :
    next_line (line ++ 10 :: rest) = (some line, rest) := by
  rw [next_line, read_until_nl_line line rest h]
  simp only [List.length_append, List.length_cons, List.length_nil]
  rw [if_neg (by omega)]
  simp only [Prod.mk.injEq, Option.some.injEq]
  constructor
  · simp
  · trivial

/-- A final nonempty line with no terminator loses its last byte. -/
theorem next_line_unterminated (line : List Nat) (h10 : 10 ∉ line)
    (hne : line ≠ []) :
    next_line line = (some line.dropLast, []) := by
  rw [next_line, read_until_nl_eof line h10]
  rw [if_neg (by simpa using hne)]
  simp [List.dropLast_eq_take]

/-- Skipping k lines leaves the stream at line k + 1. -/
theorem skipLines_encode (k : Nat) : ∀ lines : List (List Nat),
    (∀ l ∈ lines, 10 ∉ l) → k ≤ lines.length →
    skipLines k (encodeLines lines) = encodeLines (lines.drop k) := by
  induction k with
  | zero => intro lines _ _; rfl
  | succ k ih =>
    intro lines hnl hk
    match lines with
    | [] => simp at hk
    | l :: ls =>
      have hl : 10 ∉ l := hnl l (List.mem_cons_self l ls)
      have hls : ∀ x ∈ ls, 10 ∉ x := fun x hx => hnl x (List.mem_cons_of_mem l hx)
      have henc : encodeLines (l :: ls) = l ++ 10 :: encodeLines ls := by
        simp [encodeLines]
      rw [henc, skipLines, read_until_nl_line l _ hl, List.drop_succ_cons]
      exact ih ls hls (by simpa using hk)

/-- Draining an encoded word file returns exactly its lines, one fuel
unit per line. -/
theorem drainAux_encode : ∀ (lines : List (List Nat)) (fuel : Nat),
    (∀ l ∈ lines, 10 ∉ l) → lines.length ≤ fuel →
    drainAux fuel (encodeLines lines) = lines := by
  intro lines
  induction lines with
  | nil =>
    intro fuel _ _
    cases fuel with
    | zero => rfl
    | succ f => rfl
  | cons l ls ih =>
    intro fuel hnl hk
    cases fuel with
    | zero => simp at hk
    | succ f =>
      have hl : 10 ∉ l := hnl l (List.mem_cons_self l ls)
      have hls : ∀ x ∈ ls, 10 ∉ x := fun x hx => hnl x (List.mem_cons_of_mem l hx)
      have henc : encodeLines (l :: ls) = l ++ 10 :: encodeLines ls := by
        simp [encodeLines]
      rw [henc, drainAux, next_line_terminated l _ hl]
      exact congrArg (l :: ·) (ih f hls (by simpa using hk))

/-- An encoded word file has at least one byte per line. -/
theorem length_le_encodeLines (lines : List (List Nat)) :
    lines.length ≤ (encodeLines lines).length := by
  induction lines with
  | nil => simp [encodeLines]
  | cons l ls ih =>
    have henc : encodeLines (l :: ls) = l ++ 10 :: encodeLines ls := by
      simp [encodeLines]
    rw [henc]
    simp only [List.length_cons, List.length_append, List.length_cons]
    omega

/-- C1: saving a cursor value below 10^8 through u64_to_array into the
8-byte record and loading it back through parse_lines_to_skip returns
exactly that value. -/
theorem C1_cursor_roundtrip (c : Nat) (h : c < 10 ^ 8) :
    parse_lines_to_skip (u64_to_array 8 c) = c := by
  rw [parse_u64_roundtrip]
  exact Nat.mod_eq_of_lt h

theorem C1_cursor_roundtrip_witness :
    1234567 < 10 ^ 8 ∧ parse_lines_to_skip (u64_to_array 8 1234567) = 1234567 :=
  ⟨by norm_num, C1_cursor_roundtrip 1234567 (by norm_num)⟩

/-- C2: on the line consisting of byte 97 (resolving to virtual key 65)
and the unresolvable byte 200, the code emits only the key-down event
for 65 and never the key-up event the claim requires; the unresolvable
byte is skipped without error in both behaviours. -/
theorem C2_keyup_missing :
    type_out_characters vk0 [97, 200] = [KeyEvent.down 65] ∧
    type_out_characters_spec vk0 [97, 200]
      = [KeyEvent.down 65, KeyEvent.up 65] ∧
    type_out_characters vk0 [97, 200] ≠ type_out_characters_spec vk0 [97, 200] := by
  decide

/-- C3 counterexample: on a final line gamma that ends at end of file
without a trailing newline, next_line returns the four bytes gamm, so a
content byte is removed even though no terminator was present. -/
theorem C3_content_byte_removed :
    next_line [103, 97, 109, 109, 97] = (some [103, 97, 109, 109], []) ∧
    ([103, 97, 109, 109] : List Nat) ≠ [103, 97, 109, 109, 97] := by
  decide

/-- C3 amended: next_line strips exactly the last byte it consumed.
For a line followed by a newline this is the terminator and the line
text is returned intact; for a final nonempty line with no trailing
newline the last content byte is removed; an empty stream signals end
of stream. -/
theorem C3_last_byte_stripped :
    (∀ line rest : List Nat, 10 ∉ line →
      next_line (line ++ 10 :: rest) = (some line, rest)) ∧
    (∀ line : List Nat, 10 ∉ line → line ≠ [] →
      next_line line = (some line.dropLast, [])) ∧
    next_line [] = (none, []) :=
  ⟨next_line_terminated, next_line_unterminated, rfl⟩

theorem C3_last_byte_stripped_witness :
    ((10 : Nat) ∉ ([97, 98] : List Nat) ∧
      next_line ([97, 98] ++ 10 :: [99]) = (some [97, 98], [99])) ∧
    ((10 : Nat) ∉ ([103, 97, 109, 109, 97] : List Nat) ∧
      ([103, 97, 109, 109, 97] : List Nat) ≠ [] ∧
      next_line [103, 97, 109, 109, 97]
        = (some ([103, 97, 109, 109, 97] : List Nat).dropLast, [])) :=
  ⟨⟨by decide, C3_last_byte_stripped.1 [97, 98] [99] (by decide)⟩,
    ⟨by decide, by decide,
      C3_last_byte_stripped.2.1 [103, 97, 109, 109, 97] (by decide) (by decide)⟩⟩

/-- C4: from cursor 0 over the alpha, beta, gamma word file, the first
three activations emit the three lines in order leaving the cursor at
3, the fourth emits nothing, resets the cursor to 0 and rewinds the
stream, and the fifth emits alpha again. -/
theorem C4_activation_cycle :
    (runActivations 5 ⟨wordFile, wordFile, 0⟩).1
      = [some [97, 108, 112, 104, 97], some [98, 101, 116, 97],
          some [103, 97, 109, 109, 97], none, some [97, 108, 112, 104, 97]] ∧
    (runActivations 3 ⟨wordFile, wordFile, 0⟩).2.cursor = 3 ∧
    (runActivations 4 ⟨wordFile, wordFile, 0⟩).2.cursor = 0 ∧
    (runActivations 4 ⟨wordFile, wordFile, 0⟩).2.remaining = wordFile ∧
    (runActivations 5 ⟨wordFile, wordFile, 0⟩).2.cursor = 1 := by
  decide

/-- C5 counterexample: for cursor value 5 the record produced by
u64_to_array places the digit byte at the front and zero bytes after
it, so the digits are not right aligned at the end of the record as the
claim states. -/
theorem C5_not_right_aligned : ¬ specRightAligned 5 (u64_to_array 8 5) := by
  rintro ⟨-, filler, hf⟩
  have h1 : digitBytes 5 8 = [53] := by decide
  rw [h1] at hf
  have h2 := congrArg List.getLast? hf
  have h3 : (u64_to_array 8 5).getLast? = some 0 := by decide
  rw [h3, List.getLast?_concat] at h2
  simp at h2

/-- C5 amended: the record is the ASCII decimal digit bytes of the
value, most significant first, left aligned at the start of the 8-byte
record, followed by zero-byte filler; the full 8 bytes, filler
included, make up the record that main writes back. -/
theorem C5_record_layout (c : Nat) :
    u64_to_array 8 c
      = digitBytes c 8 ++ List.replicate (8 - (digitBytes c 8).length) 0 ∧
    (∀ b ∈ digitBytes c 8, 48 ≤ b ∧ b ≤ 57) ∧
    1 ≤ (digitBytes c 8).length ∧ (digitBytes c 8).length ≤ 8 ∧
    (u64_to_array 8 c).length = 8 := by
  have hlen : (digitBytes c 8).length ≤ 8 := by
    rw [digitBytes, List.length_reverse]
    exact pushDigits_length_le 8 c
  refine ⟨u64_to_array_eq 8 c, ?_, ?_, hlen, ?_⟩
  · intro b hb
    exact pushDigits_mem_range (List.mem_reverse.mp hb)
  · rw [digitBytes, List.length_reverse]
    exact pushDigits_length_pos 8 c (by norm_num)
  · rw [u64_to_array_eq]
    simp only [List.length_append, List.length_replicate]
    omega

/-- C6 counterexample: with two hotkey messages queued in one tick, the
dispatcher performs one activation and returns with the second hotkey
message still queued, instead of draining the remaining events of the
tick. -/
theorem C6_break_leaves_queue :
    (poll_event [Msg.hotkey 1, Msg.hotkey 1] ⟨wordFile, wordFile, 0⟩ true).leftover
      = [Msg.hotkey 1] ∧
    (poll_event [Msg.hotkey 1, Msg.hotkey 1] ⟨wordFile, wordFile, 0⟩ true).leftover
      ≠ [] ∧
    (poll_event [Msg.hotkey 1, Msg.hotkey 1] ⟨wordFile, wordFile, 0⟩ true).emits
      = [some [97, 108, 112, 104, 97]] := by
  decide

/-- C6 amended: on the first queued hotkey activation the dispatcher
breaks out of the event-draining loop for the tick: it performs exactly
that one activation and leaves every later queued message unconsumed
until the next poll tick. -/
theorem C6_single_activation_per_tick (rest : List Msg) (st : RunState) (run : Bool) :
    poll_event (Msg.hotkey 1 :: rest) st run
      = ⟨[(activation st).1], (activation st).2, run, rest⟩ := rfl

/-- C7: skipping k of the N lines of a word file and then reading
repeatedly yields lines k + 1 through N in order and then the end of
stream signal; with the persisted cursor 2 over the 3-line file the
first line read is the third. -/
theorem C7_skip_then_read (lines : List (List Nat)) (k : Nat)
    (hnl : ∀ l ∈ lines, 10 ∉ l) (hk : k ≤ lines.length) :
    drainLines (skipLines k (encodeLines lines)) = lines.drop k ∧
    (next_line (skipLines lines.length (encodeLines lines))).1 = none := by
  constructor
  · rw [skipLines_encode k lines hnl hk, drainLines]
    exact drainAux_encode (lines.drop k) _
      (fun l hl => hnl l (List.mem_of_mem_drop hl))
      (length_le_encodeLines (lines.drop k))
  · rw [skipLines_encode lines.length lines hnl le_rfl, List.drop_length]
    rfl

theorem C7_skip_then_read_witness :
    (∀ l ∈ [[97, 108, 112, 104, 97], [98, 101, 116, 97], [103, 97, 109, 109, 97]],
      (10 : Nat) ∉ l) ∧
    2 ≤ ([[97, 108, 112, 104, 97], [98, 101, 116, 97],
      [103, 97, 109, 109, 97]] : List (List Nat)).length ∧
    drainLines (skipLines 2 (encodeLines
        [[97, 108, 112, 104, 97], [98, 101, 116, 97], [103, 97, 109, 109, 97]]))
      = [[103, 97, 109, 109, 97]] :=
  ⟨by decide, by decide,
    ((C7_skip_then_read
      [[97, 108, 112, 104, 97], [98, 101, 116, 97], [103, 97, 109, 109, 97]] 2
      (by decide) (by decide)).1).trans (by decide)⟩

/-- C8: for the line hello the clipboard block has length six, the five
text bytes are written, but the terminating byte is left uninitialised
rather than set to zero, so the published block is not the claimed text
plus written terminator. -/
theorem C8_terminator_unwritten :
    set_clipboard_string true true [104, 101, 108, 108, 111]
      = ClipOutcome.published
          [some 104, some 101, some 108, some 108, some 111, none] ∧
    set_clipboard_string true true [104, 101, 108, 108, 111]
      ≠ ClipOutcome.published
          ([104, 101, 108, 108, 111].map some ++ [some 0]) := by
  decide

/-- C9: when the 8-byte cursor record cannot be read at startup, the
program continues past the notice, parses the buffer still pre-filled
with ASCII digit zero bytes, obtains cursor 0 and reaches the run
loop. -/
theorem C9_read_failure_nonfatal :
    startup true true (some none) true = StartupOutcome.running 0 ∧
    parse_lines_to_skip (List.replicate 8 48) = 0 := by
  decide

/-- C10: for a cursor value of at least 10^8, the 8-byte record keeps
only the lowest eight decimal digits, so loading after saving returns
the value modulo 10^8. -/
theorem C10_low_digits_wraparound (c : Nat) (_h : 10 ^ 8 ≤ c) :
    parse_lines_to_skip (u64_to_array 8 c) = c % 10 ^ 8 :=
  parse_u64_roundtrip 8 c

theorem C10_low_digits_wraparound_witness :
    10 ^ 8 ≤ 123456789 ∧
    parse_lines_to_skip (u64_to_array 8 123456789) = 123456789 % 10 ^ 8 :=
  ⟨by norm_num, C10_low_digits_wraparound 123456789 (by norm_num)⟩

end Randword
